import Mathlib

/-!
Verification of the quantization pipeline of `cnn-inference-accel`
(`src/python/src/quantize.py` and `src/python/src/convert_to_hex.py`).

Tensors are modelled as flattened (row-major) lists of rationals; the
integer results of quantization are lists of integers.  Python's `round`
(and torch's `.round()`), which round halves to the nearest even integer,
are modelled by `pyRound`.  The exceptions raised by the Python code are
modelled by `Option` / `Except` results.
-/

/-- Round to nearest, halves to even — the behaviour of Python's `round`
and of `torch.round`. -/
def pyRound (q : ℚ) : ℤ :=
  if Int.fract q < 1/2 then ⌊q⌋
  else if 1/2 < Int.fract q then ⌊q⌋ + 1
  else if ⌊q⌋ % 2 = 0 then ⌊q⌋ else ⌊q⌋ + 1

/-- `torch.clamp(v, lo, hi) = min(max(v, lo), hi)`. -/
def clampZ (v lo hi : ℤ) : ℤ := min (max v lo) hi

/-- `tensor.min()` on the flattened tensor (0 as the irrelevant default for
the empty tensor, which torch rejects). -/
def listMin : List ℚ → ℚ
  | [] => 0
  | [x] => x
  | x :: y :: rest => min x (listMin (y :: rest))

/-- `tensor.max()` on the flattened tensor. -/
def listMax : List ℚ → ℚ
  | [] => 0
  | [x] => x
  | x :: y :: rest => max x (listMax (y :: rest))

/-- `max(abs(min_val.item()), abs(max_val.item()))` from `quantize_tensor`. -/
def maxAbs (t : List ℚ) : ℚ := max |listMin t| |listMax t|

/-- `qmin = -2**(num_bits - 1)`. -/
def qminOf (b : ℕ) : ℤ := -(2 ^ (b - 1))

/-- `qmax = 2**(num_bits - 1) - 1`. -/
def qmaxOf (b : ℕ) : ℤ := 2 ^ (b - 1) - 1

/-- `quantize_tensor` from `quantize.py`: symmetric per-tensor quantization.
Returns the integer tensor and the scale. -/
def quantize_tensor (t : List ℚ) (num_bits : ℕ) : List ℤ × ℚ :=
  let qmin := qminOf num_bits
  let qmax := qmaxOf num_bits
  let max_abs := maxAbs t
  let scale : ℚ := if max_abs ≠ 0 then max_abs / (qmax : ℚ) else 1
  (t.map fun x => clampZ (pyRound (x / scale)) qmin qmax, scale)

/-- `quantize_bias_tensor` from `quantize.py`: bias quantization with
`scale = input_scale * weight_scale`. -/
def quantize_bias_tensor (bias_tensor : List ℚ) (input_scale weight_scale : ℚ)
    (num_bits : ℕ) : List ℤ × ℚ :=
  let qmin := qminOf num_bits
  let qmax := qmaxOf num_bits
  let scale := input_scale * weight_scale
  (bias_tensor.map fun x => clampZ (pyRound (x / scale)) qmin qmax, scale)

/-- The loop of `compute_scale_shift`, with the number of remaining
candidates as structural fuel: candidate shifts are
`shift, shift+1, …, shift+fuel-1`. -/
def cssFrom (real_scale : ℚ) (scale_bits shift fuel : ℕ) : Option (ℤ × ℕ) :=
  match fuel with
  | 0 => none
  | fuel' + 1 =>
    let scale_int := pyRound (real_scale * 2 ^ shift)
    if scale_int < 2 ^ scale_bits then some (scale_int, shift)
    else cssFrom real_scale scale_bits (shift + 1) fuel'

/-- `compute_scale_shift` from `quantize.py`; `none` models the raised
`ValueError` ("Cannot represent scale factor in given bit-width"). -/
def compute_scale_shift (real_scale : ℚ) (scale_bits max_shift : ℕ) :
    Option (ℤ × ℕ) :=
  cssFrom real_scale scale_bits 0 max_shift

/-- Python `format(n, '0{digits}x')` for a non-negative integer: minimal
lowercase hex rendering, zero-padded on the left to `digits` characters
(never truncated). -/
def format0x (n digits : ℕ) : String :=
  ⟨List.replicate (digits - (Nat.toDigits 16 n).length) '0' ++ Nat.toDigits 16 n⟩

/-- `weights_to_hexfile` from `convert_to_hex.py`: the sequence of lines
written to the hex file, one per scalar of the flattened tensor (the file
write itself is an external side effect). -/
def weights_to_hexfile (tensor_int : List ℤ) (width_bits : ℕ) : List String :=
  let max_val : ℤ := 2 ^ width_bits
  let hex_digits := width_bits / 4
  tensor_int.map fun val =>
    format0x (if val < 0 then val + max_val else val).toNat hex_digits

/-- Python `sub in s` — substring containment on names. -/
def containsSub (sub : List Char) : List Char → Bool
  | [] => sub.isEmpty
  | c :: cs => sub.isPrefixOf (c :: cs) || containsSub sub cs

/-- Python `s.replace(sub, repl)` — replace all non-overlapping occurrences
left to right; the list length is enough fuel since each step consumes at
least one character. -/
def replaceSubFuel (sub repl : List Char) : ℕ → List Char → List Char
  | 0, s => s
  | _ + 1, [] => []
  | fuel + 1, c :: cs =>
    if sub.isPrefixOf (c :: cs) then
      repl ++ replaceSubFuel sub repl fuel ((c :: cs).drop sub.length)
    else c :: replaceSubFuel sub repl fuel cs

def replaceSub (sub repl s : List Char) : List Char :=
  replaceSubFuel sub repl s.length s

def wordWeight : List Char := String.toList "weight"

def wordBias : List Char := String.toList "bias"

/-- The per-parameter width choice of `save_model_weights_hex`:
`width_bits=8` when `"bias" in name`, else `width_bits=2`. -/
def exportWidthBits (name : List Char) : ℕ :=
  if containsSub wordBias name then 8 else 2

/-- `save_model_weights_hex` from `convert_to_hex.py`, restricted to its
pure content: for each parameter, the hex lines written for its quantized
tensor (file naming, directory creation and the JSON dump are external
collaborators). -/
def save_model_weights_hex (qparams : List (List Char × List ℤ)) :
    List (List Char × List String) :=
  qparams.map fun p => (p.1, weights_to_hexfile p.2 (exportWidthBits p.1))

/-- One entry of the `quantized_params` dict built by
`quantize_model_weights`: the quantized tensor, its scale, and the
optional `"requant"` record `(real_scale, scale_int, shift)`. -/
structure QEntry where
  quantized : List ℤ
  scale : ℚ
  requant : Option (ℚ × ℤ × ℕ)

/-- The fatal errors of the chain traversal: `RuntimeError` for a bias
without a previously quantized weight, `ValueError` from
`compute_scale_shift`, and a `KeyError` on `layer_scales` (unreachable in
practice but present in the Python semantics). -/
inductive ChainError where
  | missingWeightForBias
  | outOfRangeScale
  | layerScaleKeyError
deriving DecidableEq

/-- The mutable state of `quantize_model_weights`: the ordered
`quantized_params` dict, the `layer_scales` dict, and `prev_output_scale`. -/
structure ChainState where
  qparams : List (List Char × QEntry)
  lscales : List (List Char × (ℚ × ℚ))
  prev : ℚ

/-- Ordered-dict lookup (`d[k]` / `k in d`). -/
def alookup {α : Type} (k : List Char) : List (List Char × α) → Option α
  | [] => none
  | p :: rest => if p.1 = k then some p.2 else alookup k rest

/-- Ordered-dict assignment `d[k] = v`: overwrite in place, else append. -/
def ainsert {α : Type} (k : List Char) (v : α) :
    List (List Char × α) → List (List Char × α)
  | [] => [(k, v)]
  | p :: rest => if p.1 = k then (k, v) :: rest else p :: ainsert k v rest

/-- One iteration of the loop of `quantize_model_weights` on the parameter
`(name, tensor)`. -/
def chainStep (num_bits bias_bits : ℕ) (st : ChainState)
    (nt : List Char × List ℚ) : Except ChainError ChainState :=
  if containsSub wordWeight nt.1 then
    let qw := quantize_tensor nt.2 num_bits
    Except.ok ⟨ainsert nt.1 ⟨qw.1, qw.2, none⟩ st.qparams,
               ainsert nt.1 (st.prev, qw.2) st.lscales, st.prev⟩
  else if containsSub wordBias nt.1 then
    let weight_name := replaceSub wordBias wordWeight nt.1
    match alookup weight_name st.qparams with
    | none => Except.error ChainError.missingWeightForBias
    | some _ =>
      match alookup weight_name st.lscales with
      | none => Except.error ChainError.layerScaleKeyError
      | some sc =>
        let qb := quantize_bias_tensor nt.2 sc.1 sc.2 bias_bits
        let qp1 := ainsert nt.1 ⟨qb.1, qb.2, none⟩ st.qparams
        let out_scale : ℚ := 1
        let rr := out_scale / (sc.1 * sc.2)
        match compute_scale_shift rr 16 31 with
        | none => Except.error ChainError.outOfRangeScale
        | some ss =>
          Except.ok ⟨ainsert nt.1 ⟨qb.1, qb.2, some (rr, ss.1, ss.2)⟩ qp1,
                     st.lscales, out_scale⟩
  else Except.ok st

/-- The loop of `quantize_model_weights` over the ordered parameter list;
the first raised error aborts the run. -/
def runChain (num_bits bias_bits : ℕ) (st : ChainState) :
    List (List Char × List ℚ) → Except ChainError ChainState
  | [] => Except.ok st
  | e :: rest =>
    match chainStep num_bits bias_bits st e with
    | Except.error err => Except.error err
    | Except.ok st' => runChain num_bits bias_bits st' rest

/-- `prev_output_scale` starts at `1.0`, both dicts empty. -/
def initChainState : ChainState := ⟨[], [], 1⟩

/-- `quantize_model_weights` from `quantize.py`: the ordered
`quantized_params` dict, or the first fatal error. -/
def quantize_model_weights (params : List (List Char × List ℚ))
    (num_bits bias_bits : ℕ) : Except ChainError (List (List Char × QEntry)) :=
  (runChain num_bits bias_bits initChainState params).map ChainState.qparams

section BasicLemmas

theorem pyRound_sub_abs_le (q : ℚ) : |(pyRound q : ℚ) - q| ≤ 1/2 := by
  have hfr : (⌊q⌋ : ℚ) = q - Int.fract q := by rw [Int.fract]; ring
  have h0 : 0 ≤ Int.fract q := Int.fract_nonneg q
  have h1 : Int.fract q < 1 := Int.fract_lt_one q
  unfold pyRound
  split_ifs with hlt hgt heven
  · rw [abs_le]; constructor <;> [skip; skip] <;> rw [hfr] <;> linarith
  · push_cast
    rw [abs_le]; constructor <;> rw [hfr] <;> linarith
  · have heq : Int.fract q = 1/2 := le_antisymm (not_lt.mp hgt) (not_lt.mp hlt)
    rw [abs_le]; constructor <;> rw [hfr, heq] <;> norm_num
  · have heq : Int.fract q = 1/2 := le_antisymm (not_lt.mp hgt) (not_lt.mp hlt)
    push_cast
    rw [abs_le]; constructor <;> rw [hfr, heq] <;> linarith

theorem pyRound_nonneg (q : ℚ) (hq : 0 ≤ q) : 0 ≤ pyRound q := by
  have hfl : 0 ≤ ⌊q⌋ := Int.floor_nonneg.mpr hq
  unfold pyRound
  split_ifs <;> omega

theorem pyRound_zero : pyRound 0 = 0 := by
  unfold pyRound
  norm_num [Int.fract]

theorem clampZ_mem (v lo hi : ℤ) (h : lo ≤ hi) :
    lo ≤ clampZ v lo hi ∧ clampZ v lo hi ≤ hi := by
  unfold clampZ
  constructor
  · exact le_min (le_max_right v lo) h
  · exact min_le_right _ hi

theorem clampZ_eq_self (v lo hi : ℤ) (hlo : lo ≤ v) (hhi : v ≤ hi) :
    clampZ v lo hi = v := by
  unfold clampZ
  omega

theorem listMin_le (l : List ℚ) (x : ℚ) (hx : x ∈ l) : listMin l ≤ x := by
  induction l with
  | nil => cases hx
  | cons a tl ih =>
    cases tl with
    | nil =>
      rcases List.mem_cons.mp hx with rfl | hm
      · simp [listMin]
      · cases hm
    | cons b tl' =>
      rcases List.mem_cons.mp hx with rfl | hmem
      · exact min_le_left _ _
      · exact le_trans (min_le_right _ _) (ih hmem)

theorem le_listMax (l : List ℚ) (x : ℚ) (hx : x ∈ l) : x ≤ listMax l := by
  induction l with
  | nil => cases hx
  | cons a tl ih =>
    cases tl with
    | nil =>
      rcases List.mem_cons.mp hx with rfl | hm
      · simp [listMax]
      · cases hm
    | cons b tl' =>
      rcases List.mem_cons.mp hx with rfl | hmem
      · exact le_max_left _ _
      · exact le_trans (ih hmem) (le_max_right _ _)

theorem abs_le_maxAbs (l : List ℚ) (x : ℚ) (hx : x ∈ l) : |x| ≤ maxAbs l := by
  rw [abs_le]
  constructor
  · have h1 : listMin l ≤ x := listMin_le l x hx
    have h2 : -|listMin l| ≤ listMin l := neg_abs_le _
    have h3 : |listMin l| ≤ maxAbs l := le_max_left _ _
    linarith
  · have h1 : x ≤ listMax l := le_listMax l x hx
    have h2 : listMax l ≤ |listMax l| := le_abs_self _
    have h3 : |listMax l| ≤ maxAbs l := le_max_right _ _
    linarith

theorem maxAbs_nonneg (l : List ℚ) : 0 ≤ maxAbs l :=
  le_trans (abs_nonneg (listMin l)) (le_max_left _ _)

theorem qminOf_nonpos (b : ℕ) : qminOf b ≤ 0 := by
  unfold qminOf
  have : (0:ℤ) < 2 ^ (b - 1) := pow_pos (by norm_num) _
  omega

theorem qminOf_le_qmaxOf (b : ℕ) : qminOf b ≤ qmaxOf b := by
  unfold qminOf qmaxOf
  have : (0:ℤ) < 2 ^ (b - 1) := pow_pos (by norm_num) _
  omega

theorem qmaxOf_pos (b : ℕ) (hb : 2 ≤ b) : 0 < qmaxOf b := by
  unfold qmaxOf
  have h1 : 1 ≤ b - 1 := by omega
  have : (2:ℤ) ^ 1 ≤ 2 ^ (b - 1) := pow_le_pow_right₀ (by norm_num) h1
  simp at this
  omega

theorem mem_zip_map {α β : Type} (f : α → β) (t : List α) (p : β × α)
    (hp : p ∈ (t.map f).zip t) : p.1 = f p.2 ∧ p.2 ∈ t := by
  induction t with
  | nil => cases hp
  | cons a tl ih =>
    rcases List.mem_cons.mp hp with h | h
    · rw [h]; exact ⟨rfl, List.mem_cons_self a tl⟩
    · rcases ih h with ⟨h1, h2⟩
      exact ⟨h1, List.mem_cons_of_mem a h2⟩

end BasicLemmas

section ScaleShiftSolver

theorem cssFrom_some_spec (s : ℚ) (sb : ℕ) :
    ∀ fuel shift si sh, cssFrom s sb shift fuel = some (si, sh) →
      si = pyRound (s * 2 ^ sh) ∧ si < 2 ^ sb ∧ shift ≤ sh ∧ sh < shift + fuel ∧
      ∀ j, shift ≤ j → j < sh → (2 ^ sb : ℤ) ≤ pyRound (s * 2 ^ j) := by
  intro fuel
  induction fuel with
  | zero => intro shift si sh h; simp [cssFrom] at h
  | succ fuel' ih =>
    intro shift si sh h
    unfold cssFrom at h
    by_cases hc : pyRound (s * 2 ^ shift) < 2 ^ sb
    · simp only [hc, if_pos, Option.some.injEq, Prod.mk.injEq] at h
      obtain ⟨hsi, hsh⟩ := h
      subst hsh
      refine ⟨hsi.symm, hsi ▸ hc, le_refl _, by omega, ?_⟩
      intro j hj1 hj2; omega
    · simp only [hc, if_neg, not_false_iff] at h
      rcases ih (shift + 1) si sh h with ⟨h1, h2, h3, h4, h5⟩
      refine ⟨h1, h2, by omega, by omega, ?_⟩
      intro j hj1 hj2
      rcases Nat.eq_or_lt_of_le hj1 with rfl | hlt
      · exact not_lt.mp hc
      · exact h5 j (by omega) hj2

theorem cssFrom_none_spec (s : ℚ) (sb : ℕ) :
    ∀ fuel shift, cssFrom s sb shift fuel = none ↔
      ∀ j, shift ≤ j → j < shift + fuel → (2 ^ sb : ℤ) ≤ pyRound (s * 2 ^ j) := by
  intro fuel
  induction fuel with
  | zero =>
    intro shift
    constructor
    · intro _ j hj1 hj2; omega
    · intro _; simp [cssFrom]
  | succ fuel' ih =>
    intro shift
    unfold cssFrom
    by_cases hc : pyRound (s * 2 ^ shift) < 2 ^ sb
    · simp only [hc, if_pos]
      constructor
      · intro h; cases h
      · intro h
        exact absurd (h shift (le_refl _) (by omega)) (not_le.mpr hc)
    · simp only [hc, if_neg, not_false_iff]
      rw [ih (shift + 1)]
      constructor
      · intro h j hj1 hj2
        rcases Nat.eq_or_lt_of_le hj1 with rfl | hlt
        · exact not_lt.mp hc
        · exact h j (by omega) (by omega)
      · intro h j hj1 hj2
        exact h j (by omega) (by omega)

end ScaleShiftSolver

/-- **C1.** For every positive `real_scale`, `compute_scale_shift` returns
`(scale_int, shift)` with `scale_int = round(real_scale * 2^shift)`,
`0 ≤ scale_int < 2^scale_bits`, `shift < max_shift` minimal among the
candidates, and it fails (raises `OutOfRangeScale`, modelled by `none`)
exactly when no shift in `[0, max_shift)` satisfies the bound. -/
theorem C1_compute_scale_shift_spec (s : ℚ) (hs : 0 < s) (sb ms : ℕ) :
    (∀ si sh, compute_scale_shift s sb ms = some (si, sh) →
        si = pyRound (s * 2 ^ sh) ∧ 0 ≤ si ∧ si < 2 ^ sb ∧ sh < ms ∧
        ∀ j, j < sh → (2 ^ sb : ℤ) ≤ pyRound (s * 2 ^ j)) ∧
    (compute_scale_shift s sb ms = none ↔
        ∀ j, j < ms → (2 ^ sb : ℤ) ≤ pyRound (s * 2 ^ j)) := by
  constructor
  · intro si sh h
    rcases cssFrom_some_spec s sb ms 0 si sh h with ⟨h1, h2, _, h4, h5⟩
    have hpos : (0:ℚ) ≤ s * 2 ^ sh := by positivity
    exact ⟨h1, h1 ▸ pyRound_nonneg _ hpos, h2, by omega,
      fun j hj => h5 j (Nat.zero_le j) hj⟩
  · unfold compute_scale_shift
    rw [cssFrom_none_spec s sb ms 0]
    constructor
    · intro h j hj; exact h j (Nat.zero_le j) (by omega)
    · intro h j _ hj; exact h j (by omega)

/-- Witness for C1 at `s = 2`, `scale_bits = 16`, `max_shift = 31`. -/
theorem C1_witness :
    (∀ si sh, compute_scale_shift 2 16 31 = some (si, sh) →
        si = pyRound ((2:ℚ) * 2 ^ sh) ∧ 0 ≤ si ∧ si < 2 ^ 16 ∧ sh < 31 ∧
        ∀ j, j < sh → (2 ^ 16 : ℤ) ≤ pyRound ((2:ℚ) * 2 ^ j)) ∧
    (compute_scale_shift 2 16 31 = none ↔
        ∀ j, j < 31 → (2 ^ 16 : ℤ) ≤ pyRound ((2:ℚ) * 2 ^ j)) :=
  C1_compute_scale_shift_spec 2 (by norm_num) 16 31

section QuantizerLemmas

theorem qmaxOf_nonneg (b : ℕ) : 0 ≤ qmaxOf b := by
  unfold qmaxOf
  have : (0:ℤ) < 2 ^ (b - 1) := pow_pos (by norm_num) _
  omega

theorem quantize_tensor_eq (t : List ℚ) (b : ℕ) :
    quantize_tensor t b =
      (t.map fun x =>
        clampZ (pyRound (x / (if maxAbs t ≠ 0 then maxAbs t / (qmaxOf b : ℚ) else 1)))
          (qminOf b) (qmaxOf b),
       if maxAbs t ≠ 0 then maxAbs t / (qmaxOf b : ℚ) else 1) := rfl

theorem listMin_all_zero (l : List ℚ) (hz : ∀ x ∈ l, x = 0) : listMin l = 0 := by
  induction l with
  | nil => rfl
  | cons a tl ih =>
    cases tl with
    | nil => simpa [listMin] using hz a (by simp)
    | cons b tl' =>
      have ha : a = 0 := hz a (by simp)
      have ht : listMin (b :: tl') = 0 :=
        ih (fun x hx => hz x (List.mem_cons_of_mem a hx))
      simp [listMin, ha, ht]

theorem listMax_all_zero (l : List ℚ) (hz : ∀ x ∈ l, x = 0) : listMax l = 0 := by
  induction l with
  | nil => rfl
  | cons a tl ih =>
    cases tl with
    | nil => simpa [listMax] using hz a (by simp)
    | cons b tl' =>
      have ha : a = 0 := hz a (by simp)
      have ht : listMax (b :: tl') = 0 :=
        ih (fun x hx => hz x (List.mem_cons_of_mem a hx))
      simp [listMax, ha, ht]

theorem maxAbs_all_zero (l : List ℚ) (hz : ∀ x ∈ l, x = 0) : maxAbs l = 0 := by
  unfold maxAbs
  rw [listMin_all_zero l hz, listMax_all_zero l hz]
  simp

end QuantizerLemmas

/-- **C2.** For every tensor and every bit-width `b`, every element of the
integer tensor returned by `quantize_tensor` lies in
`[-2^(b-1), 2^(b-1)-1]`. -/
theorem C2_quantized_in_range (t : List ℚ) (b : ℕ) (y : ℤ)
    (hy : y ∈ (quantize_tensor t b).1) : qminOf b ≤ y ∧ y ≤ qmaxOf b := by
  simp only [quantize_tensor, List.mem_map] at hy
  obtain ⟨x, _, rfl⟩ := hy
  exact clampZ_mem _ _ _ (qminOf_le_qmaxOf b)

/-- Witness for C2: the element `127` of `quantize_tensor [1] 8`. -/
theorem C2_witness : qminOf 8 ≤ 127 ∧ (127:ℤ) ≤ qmaxOf 8 :=
  C2_quantized_in_range [1] 8 127 (by
    rw [quantize_tensor_eq]
    simp only [List.map_cons, List.map_nil, List.mem_singleton]
    norm_num [maxAbs, listMin, listMax, clampZ, pyRound, Int.fract, qminOf, qmaxOf])

/-- **C9.** An all-zero tensor quantizes, at every bit-width, to all-zero
integers with the fallback scale `1.0`. -/
theorem C9_all_zero_tensor (t : List ℚ) (b : ℕ) (hz : ∀ x ∈ t, x = 0) :
    (quantize_tensor t b).2 = 1 ∧ ∀ y ∈ (quantize_tensor t b).1, y = 0 := by
  have hm : maxAbs t = 0 := maxAbs_all_zero t hz
  rw [quantize_tensor_eq, hm]
  simp only [ne_eq, not_true_eq_false, if_false]
  constructor
  · trivial
  · intro y hy
    simp only [List.mem_map] at hy
    obtain ⟨x, hx, rfl⟩ := hy
    have hx0 : x = 0 := hz x hx
    rw [hx0, div_one, pyRound_zero]
    exact clampZ_eq_self 0 _ _ (qminOf_nonpos b) (qmaxOf_nonneg b)

/-- Witness for C9 at `t = [0, 0]`, `b = 8`. -/
theorem C9_witness :
    (quantize_tensor [0, 0] 8).2 = 1 ∧ ∀ y ∈ (quantize_tensor [0, 0] 8).1, y = 0 :=
  C9_all_zero_tensor [0, 0] 8 (by intro x hx; simpa using hx)

/-- **C8.** `quantize_bias_tensor` returns scale exactly
`input_scale * weight_scale`, and each output element is
`clamp(round(x / scale), qmin, qmax)` — the same clamp/round procedure as
the weight quantizer, with the bias's own integer bounds for `num_bits`. -/
theorem C8_quantize_bias_spec (t : List ℚ) (input_scale weight_scale : ℚ) (b : ℕ) :
    (quantize_bias_tensor t input_scale weight_scale b).2 = input_scale * weight_scale ∧
    (quantize_bias_tensor t input_scale weight_scale b).1 =
      t.map (fun x =>
        clampZ (pyRound (x / (input_scale * weight_scale))) (qminOf b) (qmaxOf b)) :=
  ⟨rfl, rfl⟩

theorem qminOf_le_neg_qmaxOf (b : ℕ) : qminOf b ≤ -qmaxOf b := by
  have h : qminOf b = -(qmaxOf b + 1) := by unfold qminOf qmaxOf; ring
  omega

/-- **C3.** For every tensor with `max_abs ≠ 0` and bit-width `b ≥ 2` (so
that `qmax > 0`, the domain on which the scale `max_abs / qmax` is
defined), reconstructing each element as quantized integer times scale
differs from the original by at most half the scale. -/
theorem C3_dequantization_error (t : List ℚ) (b : ℕ) (hb : 2 ≤ b)
    (hmax : maxAbs t ≠ 0) (p : ℤ × ℚ)
    (hp : p ∈ ((quantize_tensor t b).1).zip t) :
    |(p.1 : ℚ) * (quantize_tensor t b).2 - p.2| ≤ (quantize_tensor t b).2 / 2 := by
  have hq : (0:ℤ) < qmaxOf b := qmaxOf_pos b hb
  have hqQ : (0:ℚ) < (qmaxOf b : ℚ) := by exact_mod_cast hq
  have hmpos : 0 < maxAbs t := lt_of_le_of_ne (maxAbs_nonneg t) (Ne.symm hmax)
  set scale : ℚ := maxAbs t / (qmaxOf b : ℚ) with hscale_def
  have hscale : 0 < scale := div_pos hmpos hqQ
  have h2 : (quantize_tensor t b).2 = scale := by
    rw [quantize_tensor_eq]; simp [hmax]
  have h1 : (quantize_tensor t b).1 =
      t.map (fun x => clampZ (pyRound (x / scale)) (qminOf b) (qmaxOf b)) := by
    rw [quantize_tensor_eq]; simp [hmax]
  rw [h1] at hp
  obtain ⟨hfx, hxt⟩ := mem_zip_map _ t p hp
  rw [h2, hfx]
  have habs : |p.2| ≤ maxAbs t := abs_le_maxAbs t p.2 hxt
  have hdiv : |p.2 / scale| ≤ (qmaxOf b : ℚ) := by
    rw [abs_div, abs_of_pos hscale, div_le_iff₀ hscale]
    have hms : (qmaxOf b : ℚ) * scale = maxAbs t := by
      rw [hscale_def]; field_simp
    rw [hms]; exact habs
  have hr : |(pyRound (p.2 / scale) : ℚ) - p.2 / scale| ≤ 1/2 :=
    pyRound_sub_abs_le _
  have h3 : |(pyRound (p.2 / scale) : ℚ)| ≤
      |(pyRound (p.2 / scale) : ℚ) - p.2 / scale| + |p.2 / scale| := by
    have h := abs_add ((pyRound (p.2 / scale) : ℚ) - p.2 / scale) (p.2 / scale)
    simpa using h
  have h4 : |(pyRound (p.2 / scale) : ℚ)| < (qmaxOf b : ℚ) + 1 := by linarith
  have h5 : |pyRound (p.2 / scale)| < qmaxOf b + 1 := by exact_mod_cast h4
  have hhi : pyRound (p.2 / scale) ≤ qmaxOf b := by
    rcases abs_le.mp (by omega : |pyRound (p.2 / scale)| ≤ qmaxOf b) with ⟨_, h⟩
    exact h
  have hlo : qminOf b ≤ pyRound (p.2 / scale) := by
    rcases abs_le.mp (by omega : |pyRound (p.2 / scale)| ≤ qmaxOf b) with ⟨h, _⟩
    have := qminOf_le_neg_qmaxOf b
    omega
  rw [clampZ_eq_self _ _ _ hlo hhi]
  have key : (pyRound (p.2 / scale) : ℚ) * scale - p.2 =
      ((pyRound (p.2 / scale) : ℚ) - p.2 / scale) * scale := by
    field_simp
  rw [key, abs_mul, abs_of_pos hscale]
  calc |(pyRound (p.2 / scale) : ℚ) - p.2 / scale| * scale
      ≤ (1/2) * scale := mul_le_mul_of_nonneg_right hr (le_of_lt hscale)
    _ = scale / 2 := by ring

/-- Witness for C3 at `t = [1]`, `b = 2`: the quantized pair is `(1, 1)`
with scale `1`, and `|1 * 1 - 1| = 0 ≤ 1/2`. -/
theorem C3_witness :
    |((1:ℤ) : ℚ) * (quantize_tensor [1] 2).2 - 1| ≤ (quantize_tensor [1] 2).2 / 2 :=
  C3_dequantization_error [1] 2 (le_refl 2)
    (by norm_num [maxAbs, listMin, listMax]) (1, 1)
    (by
      rw [quantize_tensor_eq]
      simp only [List.map_cons, List.map_nil, List.zip_cons_cons, List.zip_nil_right,
        List.mem_singleton, Prod.mk.injEq]
      norm_num [maxAbs, listMin, listMax, clampZ, pyRound, Int.fract, qminOf, qmaxOf])

section HexExporter

theorem toDigitsCore_length_le :
    ∀ fuel k n ds, n < 16 ^ (k + 1) → n < fuel →
      (Nat.toDigitsCore 16 fuel n ds).length ≤ (k + 1) + ds.length := by
  intro fuel
  induction fuel with
  | zero => intro k n ds _ h2; exact absurd h2 (Nat.not_lt_zero n)
  | succ fuel' ih =>
    intro k n ds h1 h2
    unfold Nat.toDigitsCore
    by_cases hz : n / 16 = 0
    · simp only [hz, if_pos, List.length_cons]
      omega
    · simp only [hz, if_neg, not_false_iff]
      cases k with
      | zero =>
        exfalso
        have hlt : n < 16 := by simpa using h1
        exact hz (Nat.div_eq_of_lt hlt)
      | succ k' =>
        have hn' : n / 16 < 16 ^ (k' + 1) := by
          rw [Nat.div_lt_iff_lt_mul (by norm_num : (0:ℕ) < 16)]
          calc n < 16 ^ (k' + 2) := h1
            _ = 16 ^ (k' + 1) * 16 := by ring
        have h16 : 16 ≤ n := by
          by_contra hlt
          push_neg at hlt
          exact hz (Nat.div_eq_of_lt hlt)
        have hfuel : n / 16 < fuel' := by
          have := Nat.div_lt_self (by omega : 0 < n) (by norm_num : 1 < 16)
          omega
        have := ih k' (n / 16) (Nat.digitChar (n % 16) :: ds) hn' hfuel
        simp only [List.length_cons] at this
        omega

theorem toDigits_length_le (n k : ℕ) (h : n < 16 ^ (k + 1)) :
    (Nat.toDigits 16 n).length ≤ k + 1 := by
  have := toDigitsCore_length_le (n + 1) k n [] h (Nat.lt_succ_self n)
  simpa [Nat.toDigits] using this

theorem format0x_length (n k : ℕ) (hn : n < 16 ^ k) (hk : 1 ≤ k) :
    (format0x n k).length = k := by
  obtain ⟨k', rfl⟩ : ∃ k', k = k' + 1 := ⟨k - 1, by omega⟩
  have hlen : (Nat.toDigits 16 n).length ≤ k' + 1 := toDigits_length_le n k' hn
  unfold format0x
  show (List.replicate (k' + 1 - (Nat.toDigits 16 n).length) '0' ++
      Nat.toDigits 16 n).length = k' + 1
  rw [List.length_append, List.length_replicate]
  omega

theorem pow16_div4 (w : ℕ) (hw4 : w % 4 = 0) : (16:ℕ) ^ (w / 4) = 2 ^ w := by
  have h4 : 4 ∣ w := Nat.dvd_of_mod_eq_zero hw4
  calc (16:ℕ) ^ (w / 4) = (2 ^ 4) ^ (w / 4) := by norm_num
    _ = 2 ^ (4 * (w / 4)) := by rw [pow_mul]
    _ = 2 ^ w := by rw [Nat.mul_div_cancel' h4]

end HexExporter

/-- **C4.** For every integer tensor whose elements lie in
`[-2^(w-1), 2^(w-1)-1]` and every positive multiple of 4 as `width_bits`,
the hex encoding emits one string per scalar in flattened order, each the
zero-padded lowercase hex rendering (of exactly `w/4` digits) of the
two's-complement transform `v < 0 → v + 2^w`; with `w = 8`:
`-1 → "ff"`, `127 → "7f"`, `-128 → "80"`, `0 → "00"`. -/
theorem C4_hex_encoding (t : List ℤ) (w : ℕ) (hw4 : w % 4 = 0) (hw : 0 < w)
    (hrange : ∀ v ∈ t, qminOf w ≤ v ∧ v ≤ qmaxOf w) :
    ((weights_to_hexfile t w).length = t.length ∧
      ∀ p ∈ (weights_to_hexfile t w).zip t,
        p.1 = format0x (if p.2 < 0 then p.2 + 2 ^ w else p.2).toNat (w / 4) ∧
        p.1.length = w / 4) ∧
    weights_to_hexfile [-1, 127, -128, 0] 8 = ["ff", "7f", "80", "00"] := by
  refine ⟨⟨by simp [weights_to_hexfile], ?_⟩, by decide⟩
  intro p hp
  simp only [weights_to_hexfile] at hp
  obtain ⟨hfx, hxt⟩ := mem_zip_map _ t p hp
  refine ⟨hfx, ?_⟩
  rw [hfx]
  rcases hrange p.2 hxt with ⟨hlo, hhi⟩
  have hA : (0:ℤ) < 2 ^ (w - 1) := pow_pos (by norm_num) _
  have h2w : (2:ℤ) ^ w = 2 * 2 ^ (w - 1) := by
    conv_lhs => rw [show w = (w - 1) + 1 by omega]
    rw [pow_succ]
    ring
  have hcast : ((2 ^ w : ℕ) : ℤ) = (2:ℤ) ^ w := by push_cast; rfl
  have hk : 1 ≤ w / 4 := by omega
  have hbound : (if p.2 < 0 then p.2 + 2 ^ w else p.2).toNat < 16 ^ (w / 4) := by
    rw [pow16_div4 w hw4]
    unfold qminOf at hlo
    unfold qmaxOf at hhi
    split_ifs with hneg <;> omega
  exact format0x_length _ _ hbound hk

/-- Witness for C4 at the tensor `[-1, 127, -128, 0]` with `w = 8`. -/
theorem C4_witness :
    ((weights_to_hexfile [-1, 127, -128, 0] 8).length = ([-1, 127, -128, 0] : List ℤ).length ∧
      ∀ p ∈ (weights_to_hexfile [-1, 127, -128, 0] 8).zip [-1, 127, -128, 0],
        p.1 = format0x (if p.2 < 0 then p.2 + 2 ^ 8 else p.2).toNat (8 / 4) ∧
        p.1.length = 8 / 4) ∧
    weights_to_hexfile [-1, 127, -128, 0] 8 = ["ff", "7f", "80", "00"] :=
  C4_hex_encoding [-1, 127, -128, 0] 8 (by decide) (by decide) (by decide)

/-- **C5.** The claim states the documented contract — weights exported
with `width_bits = 8` and biases with `width_bits = 32` — but the code's
`save_model_weights_hex` does the opposite of its own comment
("8-bit weights, 32-bit biases"): it passes `width_bits = 2` for weights
(any name without `"bias"`) and `width_bits = 8` for biases.  This theorem
evaluates the code's width choice at the failing inputs. -/
theorem C5_export_width_bug :
    exportWidthBits (String.toList "layer1.weight") = 2 ∧
    exportWidthBits (String.toList "layer1.bias") = 8 ∧
    save_model_weights_hex [(String.toList "layer1.weight", [1, -1])] =
      [(String.toList "layer1.weight", ["1", "3"])] := by
  refine ⟨by decide, by decide, ?_⟩
  decide

section ChainLemmas

theorem alookup_ainsert {α : Type} (k : List Char) (v : α)
    (l : List (List Char × α)) : alookup k (ainsert k v l) = some v := by
  induction l with
  | nil => simp [ainsert, alookup]
  | cons p rest ih =>
    by_cases h : p.1 = k
    · simp [ainsert, alookup, h]
    · simp [ainsert, alookup, h, ih]

theorem chainStep_weight (nb bb : ℕ) (st : ChainState) (name : List Char)
    (t : List ℚ) (hw : containsSub wordWeight name = true) :
    chainStep nb bb st (name, t) =
      Except.ok ⟨ainsert name ⟨(quantize_tensor t nb).1, (quantize_tensor t nb).2, none⟩
                   st.qparams,
                 ainsert name (st.prev, (quantize_tensor t nb).2) st.lscales,
                 st.prev⟩ := by
  simp [chainStep, hw]

theorem chainStep_bias_missing (nb bb : ℕ) (st : ChainState) (name : List Char)
    (t : List ℚ) (hw : containsSub wordWeight name = false)
    (hb : containsSub wordBias name = true)
    (hmiss : alookup (replaceSub wordBias wordWeight name) st.qparams = none) :
    chainStep nb bb st (name, t) = Except.error ChainError.missingWeightForBias := by
  simp [chainStep, hw, hb, hmiss]

theorem chainStep_bias_ok (nb bb : ℕ) (st : ChainState) (name : List Char)
    (t : List ℚ) (e : QEntry) (in_s w_s : ℚ) (si : ℤ) (sh : ℕ)
    (hw : containsSub wordWeight name = false)
    (hb : containsSub wordBias name = true)
    (hq : alookup (replaceSub wordBias wordWeight name) st.qparams = some e)
    (hs : alookup (replaceSub wordBias wordWeight name) st.lscales = some (in_s, w_s))
    (hc : compute_scale_shift (1 / (in_s * w_s)) 16 31 = some (si, sh)) :
    chainStep nb bb st (name, t) =
      Except.ok ⟨ainsert name
          ⟨(quantize_bias_tensor t in_s w_s bb).1, (quantize_bias_tensor t in_s w_s bb).2,
           some (1 / (in_s * w_s), si, sh)⟩
          (ainsert name
            ⟨(quantize_bias_tensor t in_s w_s bb).1, (quantize_bias_tensor t in_s w_s bb).2,
             none⟩ st.qparams),
        st.lscales, 1⟩ := by
  simp only [chainStep, hw, hb, hq, hs, Bool.false_eq_true, if_false, if_true,
    ite_true, ite_false]
  rw [show (1:ℚ) / (in_s * w_s) = 1 / (in_s * w_s) from rfl, hc]

theorem runChain_nil (nb bb : ℕ) (st : ChainState) :
    runChain nb bb st [] = Except.ok st := rfl

theorem runChain_cons_ok (nb bb : ℕ) (st st' : ChainState)
    (e : List Char × List ℚ) (rest : List (List Char × List ℚ))
    (h : chainStep nb bb st e = Except.ok st') :
    runChain nb bb st (e :: rest) = runChain nb bb st' rest := by
  have hu : runChain nb bb st (e :: rest) =
      match chainStep nb bb st e with
      | Except.error err => Except.error err
      | Except.ok st2 => runChain nb bb st2 rest := rfl
  rw [hu, h]

theorem runChain_cons_error (nb bb : ℕ) (st : ChainState) (err : ChainError)
    (e : List Char × List ℚ) (rest : List (List Char × List ℚ))
    (h : chainStep nb bb st e = Except.error err) :
    runChain nb bb st (e :: rest) = Except.error err := by
  have hu : runChain nb bb st (e :: rest) =
      match chainStep nb bb st e with
      | Except.error err2 => Except.error err2
      | Except.ok st2 => runChain nb bb st2 rest := rfl
  rw [hu, h]

theorem runChain_append (nb bb : ℕ) (st : ChainState)
    (l1 l2 : List (List Char × List ℚ)) :
    runChain nb bb st (l1 ++ l2) =
      match runChain nb bb st l1 with
      | Except.error err => Except.error err
      | Except.ok st' => runChain nb bb st' l2 := by
  induction l1 generalizing st with
  | nil => simp [runChain_nil]
  | cons e rest ih =>
    cases hstep : chainStep nb bb st e with
    | error err =>
      rw [List.cons_append, runChain_cons_error nb bb st err e (rest ++ l2) hstep,
        runChain_cons_error nb bb st err e rest hstep]
    | ok st' =>
      rw [List.cons_append, runChain_cons_ok nb bb st st' e (rest ++ l2) hstep,
        runChain_cons_ok nb bb st st' e rest hstep, ih st']

end ChainLemmas

theorem chainStep_bias_oor (nb bb : ℕ) (st : ChainState) (name : List Char)
    (t : List ℚ) (e : QEntry) (in_s w_s : ℚ)
    (hw : containsSub wordWeight name = false)
    (hb : containsSub wordBias name = true)
    (hq : alookup (replaceSub wordBias wordWeight name) st.qparams = some e)
    (hs : alookup (replaceSub wordBias wordWeight name) st.lscales = some (in_s, w_s))
    (hc : compute_scale_shift (1 / (in_s * w_s)) 16 31 = none) :
    chainStep nb bb st (name, t) = Except.error ChainError.outOfRangeScale := by
  simp only [chainStep, hw, hb, hq, hs, Bool.false_eq_true, if_false, if_true,
    ite_true, ite_false]
  rw [hc]

theorem cssFrom_succ (s : ℚ) (sb shift fuel : ℕ) :
    cssFrom s sb shift (fuel + 1) =
      if pyRound (s * 2 ^ shift) < 2 ^ sb then some (pyRound (s * 2 ^ shift), shift)
      else cssFrom s sb (shift + 1) fuel := rfl

/-- **C6.** If, at some point of the traversal reached with state `st`, a
parameter dispatched as a bias (name contains `"bias"`, and not
`"weight"` — otherwise the weight branch takes priority, see C10) has no
previously recorded matching weight, the whole run fails with
`MissingWeightForBias` and produces no output. -/
theorem C6_bias_before_weight (nb bb : ℕ) (pre post : List (List Char × List ℚ))
    (name : List Char) (t : List ℚ) (st : ChainState)
    (hpre : runChain nb bb initChainState pre = Except.ok st)
    (hb : containsSub wordBias name = true)
    (hw : containsSub wordWeight name = false)
    (hmiss : alookup (replaceSub wordBias wordWeight name) st.qparams = none) :
    quantize_model_weights (pre ++ (name, t) :: post) nb bb =
      Except.error ChainError.missingWeightForBias := by
  have h1 : runChain nb bb initChainState (pre ++ (name, t) :: post) =
      Except.error ChainError.missingWeightForBias := by
    rw [runChain_append, hpre]
    exact runChain_cons_error nb bb st ChainError.missingWeightForBias (name, t) post
      (chainStep_bias_missing nb bb st name t hw hb hmiss)
  unfold quantize_model_weights
  rw [h1]
  rfl

/-- Witness for C6: a model whose only parameter is `"layer1.bias"`. -/
theorem C6_witness :
    quantize_model_weights [(String.toList "layer1.bias", [0])] 8 32 =
      Except.error ChainError.missingWeightForBias :=
  C6_bias_before_weight 8 32 [] [] (String.toList "layer1.bias") [0] initChainState
    rfl (by decide) (by decide) rfl

/-- **C10.** A parameter whose name contains both `"weight"` and `"bias"`
is dispatched as a Weight: it is quantized with the weight bit-width, a
LayerScale `(prev_output_scale, weight_scale)` is recorded for it, and the
bias branch is never taken (its entry carries no requant record and the
state is otherwise unchanged). -/
theorem C10_weight_name_priority (nb bb : ℕ) (st : ChainState) (name : List Char)
    (t : List ℚ) (hw : containsSub wordWeight name = true)
    (_hb : containsSub wordBias name = true) :
    chainStep nb bb st (name, t) =
      Except.ok ⟨ainsert name ⟨(quantize_tensor t nb).1, (quantize_tensor t nb).2, none⟩
          st.qparams,
        ainsert name (st.prev, (quantize_tensor t nb).2) st.lscales, st.prev⟩ :=
  chainStep_weight nb bb st name t hw

/-- Witness for C10 at the name `"conv.weight_bias"`. -/
theorem C10_witness :
    chainStep 8 32 initChainState (String.toList "conv.weight_bias", [1]) =
      Except.ok ⟨ainsert (String.toList "conv.weight_bias")
          ⟨(quantize_tensor [1] 8).1, (quantize_tensor [1] 8).2, none⟩
          initChainState.qparams,
        ainsert (String.toList "conv.weight_bias")
          (initChainState.prev, (quantize_tensor [1] 8).2) initChainState.lscales,
        initChainState.prev⟩ :=
  C10_weight_name_priority 8 32 initChainState (String.toList "conv.weight_bias") [1]
    (by decide) (by decide)

set_option maxRecDepth 10000 in
/-- **C7.** For every bias successfully processed by the chain, the
attached RequantParams are `real_requant_scale = out_scale / (input_scale
* weight_scale)` with `out_scale` fixed at `1.0`, solved by
`compute_scale_shift` with `scale_bits = 16` (and the default
`max_shift = 31`); in particular, for weight `"layer1.weight"` with
`weight_scale = 0.5`, `input_scale = 1.0`, followed by `"layer1.bias"`,
the requant scale is `2.0` and the solver returns `(2, 0)`. -/
theorem C7_requant_params (nb bb : ℕ) (st st' : ChainState) (name : List Char)
    (t : List ℚ) (in_s w_s : ℚ)
    (hw : containsSub wordWeight name = false)
    (hb : containsSub wordBias name = true)
    (hs : alookup (replaceSub wordBias wordWeight name) st.lscales = some (in_s, w_s))
    (hstep : chainStep nb bb st (name, t) = Except.ok st') :
    (∃ si sh, compute_scale_shift (1 / (in_s * w_s)) 16 31 = some (si, sh) ∧
        alookup name st'.qparams =
          some ⟨(quantize_bias_tensor t in_s w_s bb).1,
                (quantize_bias_tensor t in_s w_s bb).2,
                some (1 / (in_s * w_s), si, sh)⟩) ∧
    quantize_model_weights
        [(String.toList "layer1.weight", [127/2]),
         (String.toList "layer1.bias", [0])] 8 32 =
      Except.ok [(String.toList "layer1.weight", ⟨[127], 1/2, none⟩),
                 (String.toList "layer1.bias", ⟨[0], 1/2, some (2, 2, 0)⟩)] := by
  constructor
  · cases hq : alookup (replaceSub wordBias wordWeight name) st.qparams with
    | none =>
      rw [chainStep_bias_missing nb bb st name t hw hb hq] at hstep
      exact Except.noConfusion hstep
    | some e =>
      cases hcs : compute_scale_shift (1 / (in_s * w_s)) 16 31 with
      | none =>
        rw [chainStep_bias_oor nb bb st name t e in_s w_s hw hb hq hs hcs] at hstep
        exact Except.noConfusion hstep
      | some p =>
        obtain ⟨si, sh⟩ := p
        have hok := chainStep_bias_ok nb bb st name t e in_s w_s si sh hw hb hq hs hcs
        rw [hok] at hstep
        injection hstep with h2
        refine ⟨si, sh, rfl, ?_⟩
        rw [← h2]
        exact alookup_ainsert name _ _
  · have hq_w : quantize_tensor [(127:ℚ)/2] 8 = ([127], 1/2) := by
      rw [quantize_tensor_eq]
      simp only [List.map_cons, List.map_nil, Prod.mk.injEq]
      norm_num [maxAbs, listMin, listMax, qminOf, qmaxOf, clampZ, pyRound,
        Int.fract, abs_div]
    have hq_b : quantize_bias_tensor [(0:ℚ)] 1 (1/2) 32 = ([0], 1/2) := by
      unfold quantize_bias_tensor
      simp only [List.map_cons, List.map_nil, Prod.mk.injEq]
      norm_num [qminOf, qmaxOf, clampZ, pyRound, Int.fract]
    have hcss2 : compute_scale_shift 2 16 31 = some (2, 0) := by
      show cssFrom 2 16 0 31 = some (2, 0)
      rw [show (31:ℕ) = 30 + 1 from rfl, cssFrom_succ]
      norm_num [pyRound, Int.fract]
    have hst1 : chainStep 8 32 initChainState
        (String.toList "layer1.weight", [(127:ℚ)/2]) =
        Except.ok ⟨[(String.toList "layer1.weight", ⟨[127], 1/2, none⟩)],
          [(String.toList "layer1.weight", (1, 1/2))], 1⟩ := by
      rw [chainStep_weight 8 32 initChainState (String.toList "layer1.weight")
        [(127:ℚ)/2] (by decide), hq_w]
      rfl
    have hrep : replaceSub wordBias wordWeight (String.toList "layer1.bias") =
        String.toList "layer1.weight" := by decide
    have hq2 : alookup (replaceSub wordBias wordWeight (String.toList "layer1.bias"))
        [(String.toList "layer1.weight", (⟨[127], 1/2, none⟩ : QEntry))] =
        some ⟨[127], 1/2, none⟩ := by
      rw [hrep]; simp [alookup]
    have hs2 : alookup (replaceSub wordBias wordWeight (String.toList "layer1.bias"))
        [(String.toList "layer1.weight", ((1:ℚ), (1:ℚ)/2))] = some (1, 1/2) := by
      rw [hrep]; simp [alookup]
    have h12 : (1:ℚ) / (1 * (1/2)) = 2 := by norm_num
    have hc2 : compute_scale_shift (1 / ((1:ℚ) * (1/2))) 16 31 = some (2, 0) := by
      rw [h12]; exact hcss2
    have hok2 := chainStep_bias_ok 8 32
      ⟨[(String.toList "layer1.weight", ⟨[127], 1/2, none⟩)],
       [(String.toList "layer1.weight", (1, 1/2))], 1⟩
      (String.toList "layer1.bias") [0] ⟨[127], 1/2, none⟩ 1 (1/2) 2 0
      (by decide) (by decide) hq2 hs2 hc2
    have hne : ¬ (String.toList "layer1.weight" = String.toList "layer1.bias") := by
      decide
    have hst2 : chainStep 8 32
        ⟨[(String.toList "layer1.weight", ⟨[127], 1/2, none⟩)],
         [(String.toList "layer1.weight", (1, 1/2))], 1⟩
        (String.toList "layer1.bias", [(0:ℚ)]) =
        Except.ok ⟨[(String.toList "layer1.weight", ⟨[127], 1/2, none⟩),
                    (String.toList "layer1.bias", ⟨[0], 1/2, some (2, 2, 0)⟩)],
          [(String.toList "layer1.weight", (1, 1/2))], 1⟩ := by
      rw [hok2, hq_b, h12]
      simp [ainsert, hne]
    unfold quantize_model_weights
    rw [runChain_cons_ok 8 32 initChainState _ _ _ hst1,
      runChain_cons_ok 8 32 _ _ _ _ hst2, runChain_nil]
    rfl

/-- Witness for C7: the bias `"layer1.bias"` processed against a recorded
LayerScale `(1, 1)`, so the requant scale is `1/(1*1)` and the solver
returns `(1, 0)`. -/
theorem C7_witness :
    (∃ si sh, compute_scale_shift (1 / ((1:ℚ) * 1)) 16 31 = some (si, sh) ∧
        alookup (String.toList "layer1.bias")
          (ChainState.mk
            (ainsert (String.toList "layer1.bias")
              ⟨(quantize_bias_tensor [0] 1 1 32).1, (quantize_bias_tensor [0] 1 1 32).2,
               some (1 / ((1:ℚ) * 1), 1, 0)⟩
              (ainsert (String.toList "layer1.bias")
                ⟨(quantize_bias_tensor [0] 1 1 32).1, (quantize_bias_tensor [0] 1 1 32).2,
                 none⟩
                [(String.toList "layer1.weight", ⟨[], 1, none⟩)]))
            [(String.toList "layer1.weight", (1, 1))] 1).qparams =
          some ⟨(quantize_bias_tensor [0] 1 1 32).1, (quantize_bias_tensor [0] 1 1 32).2,
                some (1 / ((1:ℚ) * 1), si, sh)⟩) ∧
    quantize_model_weights
        [(String.toList "layer1.weight", [127/2]),
         (String.toList "layer1.bias", [0])] 8 32 =
      Except.ok [(String.toList "layer1.weight", ⟨[127], 1/2, none⟩),
                 (String.toList "layer1.bias", ⟨[0], 1/2, some (2, 2, 0)⟩)] :=
  C7_requant_params 8 32
    ⟨[(String.toList "layer1.weight", ⟨[], 1, none⟩)],
     [(String.toList "layer1.weight", (1, 1))], 1⟩
    (ChainState.mk
      (ainsert (String.toList "layer1.bias")
        ⟨(quantize_bias_tensor [0] 1 1 32).1, (quantize_bias_tensor [0] 1 1 32).2,
         some (1 / ((1:ℚ) * 1), 1, 0)⟩
        (ainsert (String.toList "layer1.bias")
          ⟨(quantize_bias_tensor [0] 1 1 32).1, (quantize_bias_tensor [0] 1 1 32).2, none⟩
          [(String.toList "layer1.weight", ⟨[], 1, none⟩)]))
      [(String.toList "layer1.weight", (1, 1))] 1)
    (String.toList "layer1.bias") [0] 1 1
    (by decide) (by decide)
    (by
      rw [show replaceSub wordBias wordWeight (String.toList "layer1.bias") =
        String.toList "layer1.weight" from by decide]
      simp [alookup])
    (chainStep_bias_ok 8 32
      ⟨[(String.toList "layer1.weight", ⟨[], 1, none⟩)],
       [(String.toList "layer1.weight", (1, 1))], 1⟩
      (String.toList "layer1.bias") [0] ⟨[], 1, none⟩ 1 1 1 0
      (by decide) (by decide)
      (by
        rw [show replaceSub wordBias wordWeight (String.toList "layer1.bias") =
          String.toList "layer1.weight" from by decide]
        simp [alookup])
      (by
        rw [show replaceSub wordBias wordWeight (String.toList "layer1.bias") =
          String.toList "layer1.weight" from by decide]
        simp [alookup])
      (by
        rw [show (1:ℚ) / (1 * 1) = 1 from by norm_num]
        show cssFrom 1 16 0 31 = some (1, 0)
        rw [show (31:ℕ) = 30 + 1 from rfl, cssFrom_succ]
        norm_num [pyRound, Int.fract]))
